import Mathlib

/-!
Verification of the retrieval-policy core of the Insurance Policy Query
Assistant: the Record Store builder and lookup dictionary
(`load_and_prepare_data` in `utils.py`), the Query Classifier and Context
Resolver (`get_custom_retriever_function` / `_custom_retriever_logic` in
`utils.py`), and the dialogue loop with its conversation state
(`chatbot.py`).

Text is modelled as Lean `String` / `List Char`; Python's `str.upper`,
`str.lower` and the regex class `\d` are modelled on the ASCII range, which
is the range the policy-identifier grammar (`POL` + digits) uses.
-/

namespace InsuranceQA

/-- A loaded document row: the serialized text of one CSV record
(`doc.page_content` in the source).  Metadata is irrelevant to the
retrieval logic and is not modelled. -/
structure Doc where
  pageContent : String
  deriving DecidableEq

/-- The Record Store: `policy_dict` in `load_and_prepare_data`, a Python
dict from policy identifier to document, modelled as an insertion-ordered
association list. -/
abbrev Store := List (String × Doc)

/-- Python dict assignment `d[k] = v`: overwrite in place if the key is
present, otherwise append at the end. -/
def storeInsert (s : Store) (k : String) (v : Doc) : Store :=
  if s.any (fun p => p.1 == k) then
    s.map (fun p => if p.1 == k then (k, v) else p)
  else
    s ++ [(k, v)]

/-- Python dict lookup `d[k]` / membership `k in d` combined: the value
under `k`, if any. -/
def storeFind (s : Store) (k : String) : Option Doc :=
  match s.find? (fun p => p.1 == k) with
  | some p => some p.2
  | none => none

/-- Python membership test `k in d`. -/
def storeMem (s : Store) (k : String) : Bool :=
  s.any (fun p => p.1 == k)

/-- The keys of the store, in insertion order. -/
def storeKeys (s : Store) : List String :=
  s.map Prod.fst

/-! ### Query Classifier: `re.search(r"POL\d{3}", query.upper())` -/

/-- Does the regex `POL\d{3}` match at the very start of `cs`?  If so,
return the 6-character matched text (`match.group(0)`).  `\d` is the ASCII
digit class. -/
def pol3Here (cs : List Char) : Option String :=
  match cs with
  | p :: o :: l :: d1 :: d2 :: d3 :: _ =>
    if p == 'P' && o == 'O' && l == 'L' && d1.isDigit && d2.isDigit && d3.isDigit then
      some (String.mk [p, o, l, d1, d2, d3])
    else
      none
  | _ => none

/-- The scan `re.search(r"POL\d{3}", ·)`: leftmost match, scanning positions
left to right. -/
def findPOL3 : List Char → Option String
  | [] => none
  | c :: rest =>
    match pol3Here (c :: rest) with
    | some pid => some pid
    | none => findPOL3 rest

/-- Python `str.upper()` on the ASCII range, applied characterwise.
`Char.toUpper` maps exactly `'a'..'z'` to `'A'..'Z'`. -/
def pyUpper (s : String) : List Char :=
  s.data.map Char.toUpper

/-- The Query Classifier: `re.search(r"POL\d{3}", query.upper())`, returning
the matched text. -/
def classify (query : String) : Option String :=
  findPOL3 (pyUpper query)

/-! ### Context Resolver: `_custom_retriever_logic` -/

/-- The source `get_custom_retriever_function(vectorstore, policy_lookup_dict)`: the
returned retriever `_custom_retriever_logic`.  The `vectorstore` argument is
in scope in the source but never used on any path of the inner function;
the embedding keeps it as an argument of arbitrary type. -/
def getCustomRetrieverFunction {V : Type} (vectorstore : V) (policyLookupDict : Store) :
    String → List Doc :=
  fun query =>
    match findPOL3 (pyUpper query) with
    | some extractedPolicyId =>
      match storeFind policyLookupDict extractedPolicyId with
      | some doc => [doc]
      | none => []
    | none => []

/-- The spec's `resolve(query, store)`: the retriever with the (unused)
vector store instantiated trivially. -/
def resolve (query : String) (store : Store) : List Doc :=
  getCustomRetrieverFunction () store query

/-! ### Record Store builder: the `policy_dict` loop of
`load_and_prepare_data`, regex `policy_id: (POL\d+)` -/

/-- The literal part of the pattern `policy_id: (POL\d+)`. -/
def pidPat : List Char :=
  ['p', 'o', 'l', 'i', 'c', 'y', '_', 'i', 'd', ':', ' ', 'P', 'O', 'L']

/-- Does the literal `pat` occur at the very start of `cs`? -/
def matchLit : List Char → List Char → Bool
  | [], _ => true
  | _ :: _, [] => false
  | p :: ps, c :: cs => p == c && matchLit ps cs

/-- Does `policy_id: (POL\d+)` match at the very start of `cs`?  If so,
return the captured group `POL\d+` (greedy: the maximal digit run). -/
def pidHere (cs : List Char) : Option String :=
  if matchLit pidPat cs then
    let ds := (cs.drop pidPat.length).takeWhile Char.isDigit
    if ds.isEmpty then none
    else some (String.mk (['P', 'O', 'L'] ++ ds))
  else
    none

/-- The scan `re.search(r"policy_id: (POL\d+)", ·).group(1)`: leftmost match. -/
def findPid : List Char → Option String
  | [] => none
  | c :: rest =>
    match pidHere (c :: rest) with
    | some pid => some pid
    | none => findPid rest

/-- One iteration of the `for doc in documents` loop of
`load_and_prepare_data`: extract the identifier and assign into the dict,
or skip the row. -/
def loadStep (policyDict : Store) (doc : Doc) : Store :=
  match findPid doc.pageContent.data with
  | some policyId => storeInsert policyDict policyId doc
  | none => policyDict

/-- The `policy_dict` built by `load_and_prepare_data` from the loaded
documents. -/
def loadPolicyDict (documents : List Doc) : Store :=
  documents.foldl loadStep []

/-- The function `load_and_prepare_data` returns the full document list and the lookup
dict.  (CSV file reading is an external collaborator; the loaded rows are
the input.) -/
def loadAndPrepareData (documents : List Doc) : List Doc × Store :=
  (documents, loadPolicyDict documents)

/-! ### Dialogue loop: `chatbot.py`, the `while True` loop over
`chat_history` -/

/-- One entry of the Conversation State: `HumanMessage` or `AIMessage`. -/
inductive Msg where
  | human (text : String)
  | ai (text : String)
  deriving DecidableEq

/-- Python `str.lower()` on the ASCII range, applied characterwise. -/
def pyLower (s : String) : String :=
  String.mk (s.data.map Char.toLower)

/-- The exit test `user_query.lower() in ["exit", "quit"]`. -/
def isExitCmd (s : String) : Bool :=
  pyLower s == "exit" || pyLower s == "quit"

/-- The `while True` loop of `chatbot.py`, run on a list of console inputs.
`gen` is the external `conversational_retrieval_chain.invoke`
(rewrite + resolve + generate), consuming the raw input and the current
`chat_history` and producing the answer.  Returns the final
`chat_history` together with the list of inputs that were actually passed
to the chain (in order), so that "the chain was never invoked" is
observable. -/
def chatLoop (gen : String → List Msg → String) :
    List String → List Msg → List Msg × List String
  | [], chatHistory => (chatHistory, [])
  | userQuery :: rest, chatHistory =>
    if isExitCmd userQuery then
      (chatHistory, [])
    else
      let chatbotResponse := gen userQuery chatHistory
      let next := chatLoop gen rest
        (chatHistory ++ [Msg.human userQuery, Msg.ai chatbotResponse])
      (next.1, userQuery :: next.2)

/-- The policy-identifier grammar of the glossary: `POL` followed by exactly
three (ASCII) digits. -/
def pol3ShapeB (pid : String) : Bool :=
  match pid.data with
  | [p, o, l, d1, d2, d3] =>
    p == 'P' && o == 'O' && l == 'L' && d1.isDigit && d2.isDigit && d3.isDigit
  | _ => false

/-- The last document of the list whose extracted `policy_id` is `k`
(used to state the last-write-wins property of the dict builder). -/
def lastMatch (k : String) : List Doc → Option Doc
  | [] => none
  | d :: rest =>
    match lastMatch k rest with
    | some d2 => some d2
    | none => if findPid d.pageContent.data == some k then some d else none

-- scratch checks
example : classify "What is the premium for policy POL001?" = some "POL001" := by decide
example : classify "pol12 and pol345 later" = some "POL345" := by decide
example : classify "nothing here" = none := by decide
example : findPid "policy_id: POL1234\ncustomer_name: X".data = some "POL1234" := by decide
example : findPid "garbage row".data = none := by decide
example : resolve "ask pol001" [("POL001", ⟨"policy_id: POL001"⟩)] =
    [⟨"policy_id: POL001"⟩] := by decide
example : isExitCmd "EXIT" = true := by decide
example : isExitCmd "hello" = false := by decide
example : storeKeys (loadPolicyDict [⟨"policy_id: POL001 x"⟩, ⟨"bad"⟩, ⟨"policy_id: POL001 y"⟩]) =
    ["POL001"] := by decide

/-! ## Lemmas about the classifier -/

/-- Whatever `pol3Here` returns is a `POL` + 3-digit token. -/
theorem pol3Here_shape {cs : List Char} {pid : String} (h : pol3Here cs = some pid) :
    pol3ShapeB pid = true := by
  rcases cs with _ | ⟨p, _ | ⟨o, _ | ⟨l, _ | ⟨d1, _ | ⟨d2, _ | ⟨d3, rest⟩⟩⟩⟩⟩⟩ <;>
    simp only [pol3Here] at h <;> try exact Option.noConfusion h
  split at h
  · rename_i hcond
    cases h
    simpa [pol3ShapeB] using hcond
  · cases h

/-- Whatever the leftmost-match scan returns is a `POL` + 3-digit token. -/
theorem findPOL3_shape {cs : List Char} {pid : String} (h : findPOL3 cs = some pid) :
    pol3ShapeB pid = true := by
  induction cs with
  | nil => simp [findPOL3] at h
  | cons c rest ih =>
    simp only [findPOL3] at h
    cases hh : pol3Here (c :: rest) with
    | some s => rw [hh] at h; cases h; exact pol3Here_shape hh
    | none => rw [hh] at h; exact ih h

/-- The scan returns nothing exactly when no position of the text matches. -/
theorem findPOL3_none_iff (cs : List Char) :
    findPOL3 cs = none ↔ ∀ i, pol3Here (cs.drop i) = none := by
  induction cs with
  | nil => simp [findPOL3, pol3Here]
  | cons c rest ih =>
    constructor
    · intro h i
      simp only [findPOL3] at h
      cases hh : pol3Here (c :: rest) with
      | some s => rw [hh] at h; cases h
      | none =>
        rw [hh] at h
        cases i with
        | zero => simpa using hh
        | succ j => simpa using (ih.mp h) j
    · intro h
      simp only [findPOL3]
      have h0 : pol3Here (c :: rest) = none := by simpa using h 0
      rw [h0]
      exact ih.mpr (fun j => by simpa using h (j + 1))

/-- A successful scan is the match at the first matching position. -/
theorem findPOL3_eq_some {cs : List Char} {pid : String} (h : findPOL3 cs = some pid) :
    ∃ i, pol3Here (cs.drop i) = some pid ∧ ∀ j, j < i → pol3Here (cs.drop j) = none := by
  induction cs with
  | nil => simp [findPOL3] at h
  | cons c rest ih =>
    simp only [findPOL3] at h
    cases hh : pol3Here (c :: rest) with
    | some s =>
      rw [hh] at h
      cases h
      exact ⟨0, by simpa using hh, fun j hj => absurd hj (Nat.not_lt_zero j)⟩
    | none =>
      rw [hh] at h
      obtain ⟨i, hi, hj⟩ := ih h
      refine ⟨i + 1, by simpa using hi, ?_⟩
      intro j hj'
      cases j with
      | zero => simpa using hh
      | succ j' => simpa using hj j' (by omega)

/-! ## Claim theorems: classifier and resolver -/

/-- C4: the Query Classifier case-insensitively scans for and returns the
first substring matching `POL` + exactly three digits (so the returned
token always has exactly three digits and is the match at the earliest
matching position of the uppercased query), and returns nothing exactly
when no position matches. -/
theorem classify_first_match (q : String) :
    (∀ pid, classify q = some pid →
        pol3ShapeB pid = true ∧
        ∃ i, pol3Here ((pyUpper q).drop i) = some pid ∧
             ∀ j, j < i → pol3Here ((pyUpper q).drop j) = none) ∧
    (classify q = none ↔ ∀ i, pol3Here ((pyUpper q).drop i) = none) := by
  exact ⟨fun pid h => ⟨findPOL3_shape h, findPOL3_eq_some h⟩, findPOL3_none_iff (pyUpper q)⟩

/-- Witness for C4 on the concrete query `"ask pol12 then pol345"`: the
classifier skips the two-digit candidate and returns the first full match. -/
theorem classify_first_match_witness :
    pol3ShapeB "POL345" = true ∧
    ∃ i, pol3Here ((pyUpper "ask pol12 then pol345").drop i) = some "POL345" ∧
         ∀ j, j < i → pol3Here ((pyUpper "ask pol12 then pol345").drop j) = none :=
  (classify_first_match "ask pol12 then pol345").1 "POL345" (by decide)

/-- C1: when the classifier extracts an identifier from the query and that
identifier is a key of the Record Store, `resolve` returns exactly the one
record stored under it. -/
theorem resolve_found (q pid : String) (st : Store) (d : Doc)
    (hc : classify q = some pid) (hf : storeFind st pid = some d) :
    resolve q st = [d] := by
  simp only [classify] at hc
  simp [resolve, getCustomRetrieverFunction, hc, hf]

/-- Witness for C1: a query naming `pol001`, a store holding `POL001`. -/
theorem resolve_found_witness :
    resolve "What is the premium for policy pol001?" [("POL001", ⟨"policy_id: POL001"⟩)] =
      [⟨"policy_id: POL001"⟩] :=
  resolve_found "What is the premium for policy pol001?" "POL001"
    [("POL001", ⟨"policy_id: POL001"⟩)] ⟨"policy_id: POL001"⟩ (by decide) (by decide)

/-- C2: when the classifier extracts an identifier but it is not a key of
the Record Store, `resolve` returns the empty list — the same observable
output as the no-identifier case. -/
theorem resolve_not_found (q pid : String) (st : Store)
    (hc : classify q = some pid) (hf : storeFind st pid = none) :
    resolve q st = [] := by
  simp only [classify] at hc
  simp [resolve, getCustomRetrieverFunction, hc, hf]

/-- Witness for C2: `POL099` extracted but absent from the store. -/
theorem resolve_not_found_witness :
    resolve "What is the status of policy POL099?" [("POL001", ⟨"policy_id: POL001"⟩)] = [] :=
  resolve_not_found "What is the status of policy POL099?" "POL099"
    [("POL001", ⟨"policy_id: POL001"⟩)] (by decide) (by decide)

/-- C3: when no position of the (uppercased) query matches `POL` + three
digits, `resolve` returns the empty list for every Record Store content. -/
theorem resolve_no_identifier (q : String)
    (h : ∀ i, pol3Here ((pyUpper q).drop i) = none) :
    ∀ st : Store, resolve q st = [] := by
  intro st
  simp only [resolve, getCustomRetrieverFunction]
  rw [(findPOL3_none_iff (pyUpper q)).mpr h]

/-- Witness for C3 on `"Tell me about auto insurance"` and a nonempty
store. -/
theorem resolve_no_identifier_witness :
    resolve "Tell me about auto insurance" [("POL001", ⟨"policy_id: POL001"⟩)] = [] := by
  apply resolve_no_identifier
  intro i
  rcases Nat.lt_or_ge i 28 with hi | hi
  · exact (by decide :
      ∀ j, j < 28 → pol3Here ((pyUpper "Tell me about auto insurance").drop j) = none) i hi
  · have hl : (pyUpper "Tell me about auto insurance").length = 28 := by decide
    rw [List.drop_eq_nil_of_le (by omega)]
    rfl

/-- C5: the retriever returned by `get_custom_retriever_function` never
consults the vector store: for any two vector stores (of any types), the
results on every query and every Record Store coincide, and equal
`resolve`. -/
theorem resolver_ignores_vectorstore {V W : Type} (vs1 : V) (vs2 : W)
    (st : Store) (q : String) :
    getCustomRetrieverFunction vs1 st q = getCustomRetrieverFunction vs2 st q ∧
    getCustomRetrieverFunction vs1 st q = resolve q st :=
  ⟨rfl, rfl⟩

/-! ## Lemmas about the Record Store -/

/-- Unfolding lookup over a cons cell. -/
theorem storeFind_cons (p : String × Doc) (s : Store) (k : String) :
    storeFind (p :: s) k = if p.1 == k then some p.2 else storeFind s k := by
  simp only [storeFind, List.find?_cons]
  cases h : (p.1 == k) <;> simp [h]

/-- Overwriting inside the list leaves the sought key's value at `v`. -/
theorem storeFind_map_overwrite (k : String) (v : Doc) :
    ∀ s : Store,
      storeFind (s.map (fun p => if p.1 == k then (k, v) else p)) k =
        if s.any (fun p => p.1 == k) then some v else none := by
  intro s
  induction s with
  | nil => simp [storeFind]
  | cons p s ih =>
    simp only [List.map_cons, List.any_cons, storeFind_cons]
    by_cases hpe : p.1 = k
    · simp [hpe]
    · simp only [beq_iff_eq] at ih
      simp [hpe, ih]
      have hb : (p.1 == k) = false := by simpa using hpe
      rw [hb, Bool.false_or]

/-- Appending a fresh binding makes it the one found for its key. -/
theorem storeFind_append_self (k : String) (v : Doc) :
    ∀ s : Store, s.any (fun p => p.1 == k) = false →
      storeFind (s ++ [(k, v)]) k = some v := by
  intro s
  induction s with
  | nil => simp [storeFind_cons]
  | cons p s ih =>
    intro h
    simp only [List.any_cons, Bool.or_eq_false_iff] at h
    simp [storeFind_cons, h.1, ih h.2]

/-- Python assignment `d[k] = v` makes `d[k]` equal `v`. -/
theorem storeFind_insert_self (s : Store) (k : String) (v : Doc) :
    storeFind (storeInsert s k v) k = some v := by
  unfold storeInsert
  cases h : s.any (fun p => p.1 == k) with
  | true => rw [if_pos rfl, storeFind_map_overwrite k v s, h, if_pos rfl]
  | false =>
    rw [if_neg (by simp)]
    exact storeFind_append_self k v s h

/-- Overwriting key `k` does not touch the value found for `k' ≠ k`. -/
theorem storeFind_map_ne (k k' : String) (v : Doc) (hk : k' ≠ k) :
    ∀ s : Store,
      storeFind (s.map (fun p => if p.1 == k then (k, v) else p)) k' = storeFind s k' := by
  intro s
  induction s with
  | nil => rfl
  | cons p s ih =>
    simp only [List.map_cons, storeFind_cons]
    rw [ih]
    cases hp : (p.1 == k) with
    | true =>
      have hpe : p.1 = k := beq_iff_eq.mp hp
      have h1 : (k == k') = false := by
        rw [beq_eq_false_iff_ne]
        exact Ne.symm hk
      have h2 : (p.1 == k') = false := by
        rw [beq_eq_false_iff_ne, hpe]
        exact Ne.symm hk
      simp [hp, h1, h2]
    | false => simp [hp]

/-- Appending a binding for key `k` does not touch the value found for
`k' ≠ k`. -/
theorem storeFind_append_ne (k k' : String) (v : Doc) (hk : k' ≠ k) :
    ∀ s : Store, storeFind (s ++ [(k, v)]) k' = storeFind s k' := by
  intro s
  induction s with
  | nil =>
    have : (k == k') = false := by
      simp [beq_eq_false_iff_ne]
      exact fun hkk => hk hkk.symm
    simp [storeFind_cons, this, storeFind]
  | cons p s ih => simp [storeFind_cons, ih]

/-- Python assignment `d[k] = v` leaves every other key's value alone. -/
theorem storeFind_insert_ne (s : Store) (k k' : String) (v : Doc) (hk : k' ≠ k) :
    storeFind (storeInsert s k v) k' = storeFind s k' := by
  unfold storeInsert
  cases h : s.any (fun p => p.1 == k) with
  | true => rw [if_pos rfl, storeFind_map_ne k k' v hk s]
  | false => rw [if_neg (by simp), storeFind_append_ne k k' v hk s]

/-- Overwriting a value in place never changes the key sequence. -/
theorem storeKeys_map_overwrite (k : String) (v : Doc) :
    ∀ s : Store,
      storeKeys (s.map (fun p => if p.1 == k then (k, v) else p)) = storeKeys s := by
  intro s
  induction s with
  | nil => rfl
  | cons p s ih =>
    simp only [List.map_cons, storeKeys] at ih ⊢
    rw [ih]
    cases hp : (p.1 == k) with
    | true =>
      have hpe : p.1 = k := beq_iff_eq.mp hp
      simp [hp, hpe]
    | false => simp [hp]

/-- Overwriting never changes the key sequence; a fresh key is appended. -/
theorem storeKeys_insert (s : Store) (k : String) (v : Doc) :
    storeKeys (storeInsert s k v) =
      if storeMem s k then storeKeys s else storeKeys s ++ [k] := by
  unfold storeInsert storeMem
  cases h : s.any (fun p => p.1 == k) with
  | true => rw [if_pos rfl, if_pos rfl, storeKeys_map_overwrite k v s]
  | false =>
    rw [if_neg (by simp), if_neg (by simp)]
    simp [storeKeys]

/-- Membership agrees with the key sequence. -/
theorem storeMem_iff_keys (s : Store) (k : String) :
    storeMem s k = true ↔ k ∈ storeKeys s := by
  simp only [storeMem, storeKeys, List.any_eq_true, List.mem_map]
  constructor
  · rintro ⟨p, hp, he⟩
    exact ⟨p, hp, beq_iff_eq.mp he⟩
  · rintro ⟨p, hp, he⟩
    exact ⟨p, hp, beq_iff_eq.mpr he⟩

/-- Python dict assignment keeps the keys distinct. -/
theorem storeKeys_insert_nodup {s : Store} (k : String) (v : Doc)
    (h : (storeKeys s).Nodup) : (storeKeys (storeInsert s k v)).Nodup := by
  rw [storeKeys_insert]
  cases hm : storeMem s k with
  | true => simpa using h
  | false =>
    have hk : k ∉ storeKeys s := fun hmem =>
      by simp [(storeMem_iff_keys s k).mpr hmem] at hm
    rw [if_neg (by simp), List.nodup_append]
    refine ⟨h, List.nodup_singleton k, fun a ha hamem => ?_⟩
    rw [List.mem_singleton] at hamem
    exact hk (hamem ▸ ha)

/-- A key of the store after an insertion is the inserted key or an old
key. -/
theorem storeMem_insert {s : Store} {k0 k : String} {v : Doc}
    (h : storeMem (storeInsert s k0 v) k = true) :
    k = k0 ∨ storeMem s k = true := by
  have hkeys := storeKeys_insert s k0 v
  have hmem := (storeMem_iff_keys _ k).mp h
  rw [hkeys] at hmem
  cases hm : storeMem s k0 with
  | true =>
    rw [hm] at hmem
    simp at hmem
    exact Or.inr ((storeMem_iff_keys s k).mpr hmem)
  | false =>
    rw [hm] at hmem
    simp at hmem
    rcases hmem with hmem | hmem
    · exact Or.inr ((storeMem_iff_keys s k).mpr hmem)
    · exact Or.inl hmem

/-- The builder loop keeps keys distinct, from any accumulator on. -/
theorem foldl_loadStep_nodup (docs : List Doc) :
    ∀ s : Store, (storeKeys s).Nodup → (storeKeys (docs.foldl loadStep s)).Nodup := by
  induction docs with
  | nil => intro s h; simpa using h
  | cons d docs ih =>
    intro s h
    simp only [List.foldl_cons]
    apply ih
    unfold loadStep
    cases findPid d.pageContent.data with
    | some pid => exact storeKeys_insert_nodup pid d h
    | none => exact h

/-- The builder loop realizes last-write-wins lookup, from any accumulator
on. -/
theorem foldl_loadStep_find (docs : List Doc) :
    ∀ (s : Store) (k : String),
      storeFind (docs.foldl loadStep s) k =
        match lastMatch k docs with
        | some d => some d
        | none => storeFind s k := by
  induction docs with
  | nil => intro s k; rfl
  | cons d docs ih =>
    intro s k
    simp only [List.foldl_cons, lastMatch]
    rw [ih (loadStep s d) k]
    cases hm : lastMatch k docs with
    | some d2 => simp
    | none =>
      unfold loadStep
      cases hp : findPid d.pageContent.data with
      | some pid =>
        by_cases hk : pid = k
        · subst hk
          simp [storeFind_insert_self]
        · have hne : k ≠ pid := fun he => hk he.symm
          simp [storeFind_insert_ne s pid k d hne, hk]
      | none => simp

/-- Every key of the built dict was extracted from some row, from any
accumulator on. -/
theorem foldl_loadStep_mem (docs : List Doc) :
    ∀ (s : Store) (k : String), storeMem (docs.foldl loadStep s) k = true →
      storeMem s k = true ∨ ∃ d ∈ docs, findPid d.pageContent.data = some k := by
  induction docs with
  | nil => intro s k h; exact Or.inl h
  | cons d docs ih =>
    intro s k h
    simp only [List.foldl_cons] at h
    rcases ih _ k h with h' | ⟨d', hd', hp'⟩
    · unfold loadStep at h'
      cases hp : findPid d.pageContent.data with
      | some pid =>
        rw [hp] at h'
        rcases storeMem_insert h' with rfl | hmem
        · exact Or.inr ⟨d, by simp, hp⟩
        · exact Or.inl hmem
      | none => rw [hp] at h'; exact Or.inl h'
    · exact Or.inr ⟨d', by simp [hd'], hp'⟩

/-- Rows without an extractable identifier contribute nothing, from any
accumulator on. -/
theorem foldl_loadStep_filter (docs : List Doc) :
    ∀ s : Store,
      docs.foldl loadStep s =
        (docs.filter (fun d => (findPid d.pageContent.data).isSome)).foldl loadStep s := by
  induction docs with
  | nil => intro s; rfl
  | cons d docs ih =>
    intro s
    simp only [List.foldl_cons, List.filter_cons]
    cases hp : findPid d.pageContent.data with
    | some pid =>
      simp only [hp, Option.isSome_some, if_true, List.foldl_cons]
      exact ih (loadStep s d)
    | none =>
      have hstep : loadStep s d = s := by unfold loadStep; rw [hp]
      simp only [hp, Option.isSome_none, Bool.false_eq_true, if_false]
      rw [hstep]
      exact ih s

/-- The store-builder regex finds nothing exactly when no position of the
row text matches `policy_id: POL\d+`. -/
theorem findPid_none_iff (cs : List Char) :
    findPid cs = none ↔ ∀ i, pidHere (cs.drop i) = none := by
  induction cs with
  | nil =>
    constructor
    · intro _ i
      rw [List.drop_nil]
      decide
    · intro _
      rfl
  | cons c rest ih =>
    constructor
    · intro h i
      simp only [findPid] at h
      cases hh : pidHere (c :: rest) with
      | some s => rw [hh] at h; cases h
      | none =>
        rw [hh] at h
        cases i with
        | zero => simpa using hh
        | succ j => simpa using (ih.mp h) j
    · intro h
      simp only [findPid]
      have h0 : pidHere (c :: rest) = none := by simpa using h 0
      rw [h0]
      exact ih.mpr (fun j => by simpa using h (j + 1))

/-! ## Claim theorems: Record Store -/

/-- C8: the dict builder is last-write-wins: lookup of any identifier
yields exactly the record of the last row that carried it (none if no row
did), and the keys of the built dict are distinct, so every identifier
appears as a key at most once. -/
theorem store_last_write_wins (documents : List Doc) (k : String) :
    (storeKeys (loadPolicyDict documents)).Nodup ∧
    storeFind (loadPolicyDict documents) k = lastMatch k documents := by
  constructor
  · exact foldl_loadStep_nodup documents [] (by simp [storeKeys])
  · rw [loadPolicyDict, foldl_loadStep_find documents [] k]
    cases lastMatch k documents <;> rfl

/-- C9: the build is total and malformed rows are silently dropped: the
dict built from all rows equals the dict built from only the rows with an
extractable identifier, every key of the dict comes from some row, and a
row no position of which matches `policy_id: POL\d+` yields no
identifier. -/
theorem malformed_rows_dropped (documents : List Doc) :
    loadPolicyDict documents =
      loadPolicyDict (documents.filter (fun d => (findPid d.pageContent.data).isSome)) ∧
    (∀ k, storeMem (loadPolicyDict documents) k = true →
        ∃ d ∈ documents, findPid d.pageContent.data = some k) ∧
    (∀ d : Doc, (∀ i, pidHere (d.pageContent.data.drop i) = none) →
        findPid d.pageContent.data = none) := by
  refine ⟨foldl_loadStep_filter documents [], ?_, ?_⟩
  · intro k h
    rcases foldl_loadStep_mem documents [] k h with h' | h'
    · simp [storeMem] at h'
    · exact h'
  · intro d h
    exact (findPid_none_iff _).mpr h

/-- Witness for C9: a well-formed and a malformed row; the key of the dict
originates in the well-formed one. -/
theorem malformed_rows_dropped_witness :
    ∃ d ∈ [(⟨"policy_id: POL001 x"⟩ : Doc), ⟨"garbage"⟩],
      findPid d.pageContent.data = some "POL001" :=
  (malformed_rows_dropped [⟨"policy_id: POL001 x"⟩, ⟨"garbage"⟩]).2.1 "POL001" (by decide)

/-- C10: every record `resolve` returns was found under an identifier of
exactly `POL` + three digits; the classifier can never produce the
four-digit `POL1234`, even though the builder (pattern `POL\d+`) can put
`POL1234` into the dict, so such a record is never returned. -/
theorem resolve_only_pol3 :
    (∀ (q : String) (st : Store) (d : Doc), d ∈ resolve q st →
        ∃ pid, classify q = some pid ∧ pol3ShapeB pid = true ∧ storeFind st pid = some d) ∧
    (∀ q : String, classify q ≠ some "POL1234") ∧
    storeMem (loadPolicyDict [⟨"policy_id: POL1234"⟩]) "POL1234" = true := by
  refine ⟨?_, ?_, by decide⟩
  · intro q st d hd
    simp only [resolve, getCustomRetrieverFunction] at hd
    cases hc : findPOL3 (pyUpper q) with
    | none => simp [hc] at hd
    | some pid =>
      cases hf : storeFind st pid with
      | none => simp [hc, hf] at hd
      | some d0 =>
        simp [hc, hf] at hd
        subst hd
        exact ⟨pid, hc, findPOL3_shape hc, hf⟩
  · intro q hq
    have hshape : pol3ShapeB "POL1234" = true :=
      findPOL3_shape (by simpa [classify] using hq)
    exact absurd hshape (by decide)

/-- Witness for C10: a record returned for `"pol001 please"` comes with a
three-digit identifier. -/
theorem resolve_only_pol3_witness :
    ∃ pid, classify "pol001 please" = some pid ∧ pol3ShapeB pid = true ∧
      storeFind [("POL001", (⟨"policy_id: POL001"⟩ : Doc))] pid =
        some ⟨"policy_id: POL001"⟩ :=
  resolve_only_pol3.1 "pol001 please" [("POL001", ⟨"policy_id: POL001"⟩)]
    ⟨"policy_id: POL001"⟩ (by decide)

/-! ## Lemmas about the dialogue loop -/

/-- On an exit keyword the loop stops: state unchanged, chain never
invoked. -/
theorem chatLoop_exit {gen : String → List Msg → String} {q : String}
    (h : isExitCmd q = true) (rest : List String) (hist : List Msg) :
    chatLoop gen (q :: rest) hist = (hist, []) := by
  simp [chatLoop, h]

/-- History component of one non-exit turn. -/
theorem chatLoop_fst_step {gen : String → List Msg → String} {q : String}
    (h : isExitCmd q = false) (rest : List String) (hist : List Msg) :
    (chatLoop gen (q :: rest) hist).1 =
      (chatLoop gen rest (hist ++ [Msg.human q, Msg.ai (gen q hist)])).1 := by
  simp [chatLoop, h]

/-- Chain-invocation log of one non-exit turn. -/
theorem chatLoop_snd_step {gen : String → List Msg → String} {q : String}
    (h : isExitCmd q = false) (rest : List String) (hist : List Msg) :
    (chatLoop gen (q :: rest) hist).2 =
      q :: (chatLoop gen rest (hist ++ [Msg.human q, Msg.ai (gen q hist)])).2 := by
  simp [chatLoop, h]

/-- The loop only ever appends to the history it is given. -/
theorem chatLoop_hist_app (gen : String → List Msg → String) :
    ∀ (qs : List String) (hist : List Msg), ∃ t, (chatLoop gen qs hist).1 = hist ++ t := by
  intro qs
  induction qs with
  | nil => exact fun hist => ⟨[], by simp [chatLoop]⟩
  | cons q rest ih =>
    intro hist
    cases hq : isExitCmd q with
    | true => exact ⟨[], by simp [chatLoop_exit hq]⟩
    | false =>
      obtain ⟨t, ht⟩ := ih (hist ++ [Msg.human q, Msg.ai (gen q hist)])
      exact ⟨[Msg.human q, Msg.ai (gen q hist)] ++ t, by
        rw [chatLoop_fst_step hq, ht, List.append_assoc]⟩

/-- Each completed turn adds exactly two entries. -/
theorem chatLoop_length (gen : String → List Msg → String) :
    ∀ qs : List String, (∀ q ∈ qs, isExitCmd q = false) →
      ∀ hist : List Msg, (chatLoop gen qs hist).1.length = hist.length + 2 * qs.length := by
  intro qs
  induction qs with
  | nil => intro _ hist; simp [chatLoop]
  | cons q rest ih =>
    intro hne hist
    have hq : isExitCmd q = false := hne q (by simp)
    rw [chatLoop_fst_step hq]
    have := ih (fun x hx => hne x (by simp [hx])) (hist ++ [Msg.human q, Msg.ai (gen q hist)])
    rw [this]
    simp
    omega

/-- Entry `2*i` of the final history is the `i`-th user utterance, and
entry `2*i + 1` is the answer generated from it and the state after the
first `i` turns. -/
theorem chatLoop_getElem (gen : String → List Msg → String) :
    ∀ qs : List String, (∀ q ∈ qs, isExitCmd q = false) →
      ∀ (hist : List Msg) (i : Nat) (q : String), qs[i]? = some q →
        (chatLoop gen qs hist).1[hist.length + 2 * i]? = some (Msg.human q) ∧
        (chatLoop gen qs hist).1[hist.length + 2 * i + 1]? =
          some (Msg.ai (gen q (chatLoop gen (qs.take i) hist).1)) := by
  intro qs
  induction qs with
  | nil => intro _ hist i q h; simp at h
  | cons q0 rest ih =>
    intro hne hist i q h
    have hq0 : isExitCmd q0 = false := hne q0 (by simp)
    cases i with
    | zero =>
      simp only [List.getElem?_cons_zero, Option.some.injEq] at h
      subst h
      rw [chatLoop_fst_step hq0]
      obtain ⟨t, ht⟩ :=
        chatLoop_hist_app gen rest (hist ++ [Msg.human q0, Msg.ai (gen q0 hist)])
      rw [ht, List.append_assoc]
      constructor
      · rw [List.getElem?_append_right (by omega)]
        simp
      · rw [List.getElem?_append_right (by omega)]
        have : hist.length + 2 * 0 + 1 - hist.length = 1 := by omega
        rw [this]
        simp [chatLoop]
    | succ j =>
      simp only [List.getElem?_cons_succ] at h
      have ihres := ih (fun x hx => hne x (by simp [hx]))
        (hist ++ [Msg.human q0, Msg.ai (gen q0 hist)]) j q h
      have hl : (hist ++ [Msg.human q0, Msg.ai (gen q0 hist)]).length = hist.length + 2 := by
        simp
      rw [chatLoop_fst_step hq0]
      constructor
      · have := ihres.1
        rw [hl] at this
        rw [show hist.length + 2 * (j + 1) = hist.length + 2 + 2 * j by omega]
        rw [this]
      · have := ihres.2
        rw [hl] at this
        rw [show hist.length + 2 * (j + 1) + 1 = hist.length + 2 + 2 * j + 1 by omega]
        rw [this]
        rw [List.take_succ_cons, chatLoop_fst_step hq0]

/-- The state after the first `n` turns is a prefix of the final state:
earlier entries are never removed or reordered. -/
theorem chatLoop_take (gen : String → List Msg → String) :
    ∀ qs : List String, (∀ q ∈ qs, isExitCmd q = false) →
      ∀ (hist : List Msg) (n : Nat),
        (chatLoop gen qs hist).1.take (hist.length + 2 * n) =
          (chatLoop gen (qs.take n) hist).1 := by
  intro qs
  induction qs with
  | nil =>
    intro _ hist n
    simp [chatLoop, List.take_of_length_le (Nat.le_add_right _ _)]
  | cons q rest ih =>
    intro hne hist n
    have hq : isExitCmd q = false := hne q (by simp)
    cases n with
    | zero =>
      obtain ⟨t, ht⟩ := chatLoop_hist_app gen (q :: rest) hist
      rw [ht]
      show (hist ++ t).take (hist.length + 2 * 0) = hist
      simp
    | succ m =>
      rw [chatLoop_fst_step hq, List.take_succ_cons, chatLoop_fst_step hq]
      have := ih (fun x hx => hne x (by simp [hx]))
        (hist ++ [Msg.human q, Msg.ai (gen q hist)]) m
      rw [show hist.length + 2 * (m + 1) =
        (hist ++ [Msg.human q, Msg.ai (gen q hist)]).length + 2 * m by simp; omega]
      exact this

/-! ## Claim theorems: dialogue loop -/

/-- C6: after `N` completed (non-exit) turns starting from an empty state,
the Conversation State has exactly `2N` entries; entry `2i` is the `i`-th
user utterance and entry `2i + 1` is the assistant answer generated for it
from the state after the first `i` turns (so each turn appends the user
message then the assistant message); and the state after the first `n`
turns is a prefix of the final state, so earlier entries are never removed
or reordered. -/
theorem chat_history_shape (gen : String → List Msg → String) (qs : List String)
    (hne : ∀ q ∈ qs, isExitCmd q = false) :
    (chatLoop gen qs []).1.length = 2 * qs.length ∧
    (∀ (i : Nat) (q : String), qs[i]? = some q →
        (chatLoop gen qs []).1[2 * i]? = some (Msg.human q) ∧
        (chatLoop gen qs []).1[2 * i + 1]? =
          some (Msg.ai (gen q (chatLoop gen (qs.take i) []).1))) ∧
    (∀ n : Nat, (chatLoop gen qs []).1.take (2 * n) = (chatLoop gen (qs.take n) []).1) := by
  refine ⟨?_, ?_, ?_⟩
  · simpa using chatLoop_length gen qs hne []
  · intro i q h
    simpa using chatLoop_getElem gen qs hne [] i q h
  · intro n
    simpa using chatLoop_take gen qs hne [] n

/-- Witness for C6: two concrete turns yield four entries in order. -/
theorem chat_history_shape_witness :
    (chatLoop (fun _ _ => "A") ["hi", "pol001?"] []).1.length =
      2 * (["hi", "pol001?"] : List String).length :=
  (chat_history_shape (fun _ _ => "A") ["hi", "pol001?"] (by decide)).1

/-- C7: an input equal (case-insensitively) to `"exit"` or `"quit"`
terminates the loop with the Conversation State unmodified and the
rewrite/resolve/generate chain never invoked; any other input is processed
as a query: it is passed to the chain and the turn is appended. -/
theorem exit_terminates (gen : String → List Msg → String) (q : String)
    (rest : List String) (hist : List Msg) :
    ((pyLower q = "exit" ∨ pyLower q = "quit") →
        chatLoop gen (q :: rest) hist = (hist, [])) ∧
    (pyLower q ≠ "exit" → pyLower q ≠ "quit" →
        (chatLoop gen (q :: rest) hist).2 =
          q :: (chatLoop gen rest (hist ++ [Msg.human q, Msg.ai (gen q hist)])).2) := by
  constructor
  · intro h
    have hq : isExitCmd q = true := by
      rcases h with h | h <;> simp [isExitCmd, h]
    exact chatLoop_exit hq rest hist
  · intro h1 h2
    have hq : isExitCmd q = false := by
      simp [isExitCmd, h1, h2]
    exact chatLoop_snd_step hq rest hist

/-- Witness for C7: `"Quit"` terminates untouched; `"hello"` is processed. -/
theorem exit_terminates_witness :
    chatLoop (fun _ _ => "A") ["Quit"] [Msg.human "x"] = ([Msg.human "x"], []) ∧
    (chatLoop (fun _ _ => "A") ["hello"] []).2 =
      "hello" :: (chatLoop (fun _ _ => "A") []
        ([] ++ [Msg.human "hello", Msg.ai ((fun _ _ => "A") "hello" ([] : List Msg))])).2 :=
  ⟨(exit_terminates (fun _ _ => "A") "Quit" [] [Msg.human "x"]).1 (Or.inr (by decide)),
   (exit_terminates (fun _ _ => "A") "hello" [] []).2 (by decide) (by decide)⟩

end InsuranceQA
